import Mathlib

/-!
Shallow embedding of `get_new_camera_info_tables` from
`src/arcgis_oriented_imagery/data.py`.

The remote object store (boto3 S3 client) is modelled as a record of pure
functions: `listObjects` maps a call index (0-based, counting the listing
calls the function would make over time) and an optional continuation token
to a listing response, and `downloadFile` maps a key to success or failure.
The source issues exactly one listing call, `list_objects_v2(Bucket, Prefix)`,
with no continuation token, which corresponds to `listObjects 0 none`.

The manifest JSON file is modelled as an association list preserving
insertion order, matching Python `dict` semantics (`json.load`/`json.dump`
round-trip an object through an insertion-ordered dict). `Option Manifest`
models presence of the manifest file: `none` means the file does not exist.

Timestamps are carried as their already-normalized UTC ISO-8601 strings,
i.e. the value of `obj["LastModified"].replace(tzinfo=timezone.utc).isoformat()`.
-/

/-- Errors raised by the remote store: `credentials` models
`NoCredentialsError` / `PartialCredentialsError`, `generic` models any other
exception. -/
inductive S3Error where
  | credentials
  | generic
deriving DecidableEq, Repr

/-- One object record of a listing response: the `Key` and the normalized
UTC ISO-8601 rendering of its `LastModified` time. -/
structure S3Object where
  key : String
  lastModified : String
deriving DecidableEq, Repr

/-- One `list_objects_v2` response: the optional `Contents` array (absent
when the response carries no contents indicator), the `IsTruncated` flag and
the optional `NextContinuationToken`. -/
structure ListResponse where
  contents : Option (List S3Object)
  isTruncated : Bool
  nextToken : Option String
deriving DecidableEq, Repr

/-- The remote store: `listObjects i tok` is the response of the `i`-th
listing call when passed continuation token `tok` (the call index models
flaky listings whose responses change between identical calls);
`downloadFile k` is the outcome of `download_file` for key `k`. -/
structure S3Store where
  listObjects : Nat → Option String → Except S3Error ListResponse
  downloadFile : String → Except S3Error Unit

/-- The manifest: a filename-to-timestamp mapping as an insertion-ordered
association list, the model of the JSON object in `s3_manifest.json`. -/
abbrev Manifest := List (String × String)

/-- Lookup in a manifest: `existing_manifest[filename]` / the
`filename in existing_manifest` test. -/
def manifestLookup : Manifest → String → Option String
  | [], _ => none
  | (k, v) :: rest, key => if k = key then some v else manifestLookup rest key

/-- Python dict assignment `existing_manifest[filename] = last_modified`:
update the existing entry in place, or append a new entry at the end. -/
def manifestInsert : Manifest → String → String → Manifest
  | [], key, val => [(key, val)]
  | (k, v) :: rest, key, val =>
    if k = key then (k, val) :: rest else (k, v) :: manifestInsert rest key val

/-- Python `s.endswith(suf)` tested on the reversed character data:
`listBeginsWith xs ys` is true when `ys` is an initial segment of `xs`. -/
def listBeginsWith : List Char → List Char → Bool
  | _, [] => true
  | [], _ :: _ => false
  | c :: cs, d :: ds => c == d && listBeginsWith cs ds

/-- Python `s.endswith(suf)`: `suf` is a suffix of `s`. -/
def strEndsWith (s suf : String) : Bool :=
  listBeginsWith s.data.reverse suf.data.reverse

/-- Python `key.split("/")` on the character data: split at every `'/'`;
always returns at least one (possibly empty) segment. -/
def splitSegments : List Char → List (List Char)
  | [] => [[]]
  | c :: rest =>
    if c = '/' then [] :: splitSegments rest
    else
      match splitSegments rest with
      | [] => [[c]]
      | s :: ss => (c :: s) :: ss

/-- `key.split("/")[-1]`: the last path segment of an object key. -/
def lastSegment (key : String) : String :=
  ⟨(splitSegments key.data).getLastD []⟩

/-- The per-record qualification test of the source:
`filename.endswith(".csv") and ((filename not in existing_manifest) or
(existing_manifest[filename] != last_modified))`. -/
def qualifies (m : Manifest) (filename lastModified : String) : Bool :=
  strEndsWith filename ".csv" &&
    (match manifestLookup m filename with
     | none => true
     | some stored => stored != lastModified)

/-- Outcome of the per-record loop: `ok` carries the in-memory manifest and
the accumulated `new_tables` when every iteration completed, `err` carries
the `new_tables` accumulated before an exception escaped a download call. -/
inductive LoopResult where
  | ok (manifest : Manifest) (newTables : List String)
  | err (newTables : List String)
deriving DecidableEq, Repr

/-- The `new_tables` list carried by a loop outcome. -/
def LoopResult.tables : LoopResult → List String
  | .ok _ t => t
  | .err t => t

/-- The `for obj in response["Contents"]` loop of the source: for each
record compute `filename` and `local_file_path`, test qualification against
the in-memory manifest, and on qualification download the object, append
the local path to `new_tables` and update the manifest in memory. A raised
download error escapes the loop with the tables accumulated so far. -/
def processObjects (store : S3Store) (localDir : String) :
    List S3Object → Manifest → List String → LoopResult
  | [], m, acc => .ok m acc
  | obj :: rest, m, acc =>
    let filename := lastSegment obj.key
    if qualifies m filename obj.lastModified then
      match store.downloadFile obj.key with
      | .error _ => .err acc
      | .ok _ =>
        processObjects store localDir rest
          (manifestInsert m filename obj.lastModified)
          (acc ++ [localDir ++ "/" ++ filename])
    else
      processObjects store localDir rest m acc

/-- Observable outcome of one invocation: the returned `new_tables` list of
local paths, and the manifest file content afterwards (`none` when the file
does not exist). -/
structure SyncOutcome where
  newTables : List String
  manifestFile : Option Manifest
deriving DecidableEq, Repr

/-- Shallow embedding of `get_new_camera_info_tables`: issue the single
listing call; return empty on no contents indicator or on any raised error;
otherwise load the manifest (empty mapping when the file is absent), run the
per-record loop, and rewrite the manifest file only when the loop completed
without a raised error. `manifestFile0` is the manifest file's prior state. -/
def getNewCameraInfoTables (store : S3Store) (localDir : String)
    (manifestFile0 : Option Manifest) : SyncOutcome :=
  match store.listObjects 0 none with
  | .error _ => ⟨[], manifestFile0⟩
  | .ok resp =>
    match resp.contents with
    | none => ⟨[], manifestFile0⟩
    | some objs =>
      match processObjects store localDir objs (manifestFile0.getD []) [] with
      | .ok m acc => ⟨acc, some m⟩
      | .err acc => ⟨acc, manifestFile0⟩

/-- The `new_tables` list produced by the loop when every download
succeeds, as a pure recursion (proved equal to `processObjects` under that
hypothesis in `processObjects_eq_run`). -/
def runTables (localDir : String) : List S3Object → Manifest → List String
  | [], _ => []
  | obj :: rest, m =>
    let filename := lastSegment obj.key
    if qualifies m filename obj.lastModified then
      (localDir ++ "/" ++ filename) ::
        runTables localDir rest (manifestInsert m filename obj.lastModified)
    else
      runTables localDir rest m

/-- The in-memory manifest produced by the loop when every download
succeeds, as a pure recursion. -/
def runManifest : List S3Object → Manifest → Manifest
  | [], m => m
  | obj :: rest, m =>
    let filename := lastSegment obj.key
    if qualifies m filename obj.lastModified then
      runManifest rest (manifestInsert m filename obj.lastModified)
    else
      runManifest rest m

theorem processObjects_eq_run (store : S3Store) (localDir : String)
    (hdl : ∀ k, store.downloadFile k = .ok ()) :
    ∀ (objs : List S3Object) (m : Manifest) (acc : List String),
      processObjects store localDir objs m acc =
        .ok (runManifest objs m) (acc ++ runTables localDir objs m) := by
  intro objs
  induction objs with
  | nil => intro m acc; simp [processObjects, runManifest, runTables]
  | cons obj rest ih =>
    intro m acc
    simp only [processObjects, runManifest, runTables]
    by_cases hq : qualifies m (lastSegment obj.key) obj.lastModified
    · rw [if_pos hq, if_pos hq, if_pos hq, hdl obj.key, ih]
      simp
    · rw [if_neg hq, if_neg hq, if_neg hq, ih]

theorem manifestLookup_insert (m : Manifest) (k v : String) (k2 : String) :
    manifestLookup (manifestInsert m k v) k2 =
      if k2 = k then some v else manifestLookup m k2 := by
  induction m with
  | nil =>
    simp only [manifestInsert, manifestLookup]
    by_cases h : k = k2
    · rw [if_pos h, if_pos h.symm]
    · rw [if_neg h, if_neg (fun h2 => h h2.symm)]
  | cons kv rest ih =>
    obtain ⟨k0, v0⟩ := kv
    simp only [manifestInsert]
    by_cases h0 : k0 = k
    · subst h0
      simp only [manifestLookup]
      by_cases h : k0 = k2
      · rw [if_pos h, if_pos h.symm]
      · rw [if_neg h, if_neg (fun h2 => h h2.symm), if_neg h]
    · rw [if_neg h0]
      simp only [manifestLookup]
      by_cases h : k0 = k2
      · subst h
        rw [if_pos rfl, if_pos rfl, if_neg h0]
      · rw [if_neg h, if_neg h, ih]

theorem qualifies_insert_of_ne (m : Manifest) (k v : String) (f t : String)
    (hne : f ≠ k) : qualifies (manifestInsert m k v) f t = qualifies m f t := by
  simp [qualifies, manifestLookup_insert, hne]

theorem string_append_left_cancel (a : String) {b c : String}
    (h : a ++ b = a ++ c) : b = c := by
  have hd : (a ++ b).data = (a ++ c).data := congrArg String.data h
  simp only [String.data_append] at hd
  exact String.ext (List.append_cancel_left hd)

/-- Every entry of the loop tables list is the local path of a listed record
whose filename has the lowercase `.csv` suffix. -/
theorem mem_runTables (localDir : String) :
    ∀ (objs : List S3Object) (m : Manifest) (p : String),
      p ∈ runTables localDir objs m →
      ∃ obj ∈ objs, p = localDir ++ "/" ++ lastSegment obj.key ∧
        strEndsWith (lastSegment obj.key) ".csv" = true := by
  intro objs
  induction objs with
  | nil => intro m p hp; simp [runTables] at hp
  | cons obj rest ih =>
    intro m p hp
    simp only [runTables] at hp
    by_cases hq : qualifies m (lastSegment obj.key) obj.lastModified
    · rw [if_pos hq] at hp
      rcases List.mem_cons.mp hp with h | h
      · refine ⟨obj, List.mem_cons_self _ _, h, ?_⟩
        have := hq
        simp only [qualifies, Bool.and_eq_true] at this
        exact this.1
      · obtain ⟨o, ho, hrest⟩ := ih _ p h
        exact ⟨o, List.mem_cons_of_mem _ ho, hrest⟩
    · rw [if_neg hq] at hp
      obtain ⟨o, ho, hrest⟩ := ih _ p hp
      exact ⟨o, List.mem_cons_of_mem _ ho, hrest⟩

/-- Filenames never listed keep their manifest entry unchanged through the
loop. -/
theorem runManifest_lookup_of_not_listed :
    ∀ (objs : List S3Object) (m : Manifest) (k : String),
      (∀ obj ∈ objs, lastSegment obj.key ≠ k) →
      manifestLookup (runManifest objs m) k = manifestLookup m k := by
  intro objs
  induction objs with
  | nil => intro m k _; simp [runManifest]
  | cons obj rest ih =>
    intro m k hk
    have hne : lastSegment obj.key ≠ k := hk obj (List.mem_cons_self _ _)
    have hrest : ∀ o ∈ rest, lastSegment o.key ≠ k :=
      fun o ho => hk o (List.mem_cons_of_mem _ ho)
    simp only [runManifest]
    by_cases hq : qualifies m (lastSegment obj.key) obj.lastModified
    · rw [if_pos hq, ih _ _ hrest, manifestLookup_insert, if_neg (Ne.symm hne)]
    · rw [if_neg hq, ih _ _ hrest]

/-- A CSV record that does not qualify already has its exact timestamp
stored in the manifest. -/
theorem lookup_of_not_qualifies (m : Manifest) (f t : String)
    (hcsv : strEndsWith f ".csv" = true)
    (hq : qualifies m f t = false) : manifestLookup m f = some t := by
  simp only [qualifies, hcsv, Bool.true_and] at hq
  cases hlk : manifestLookup m f with
  | none => rw [hlk] at hq; simp at hq
  | some stored =>
    rw [hlk] at hq
    simp only [bne_eq_false_iff_eq] at hq
    rw [hq]

/-- Under distinct filenames, a listed record's local path is in the loop
tables list exactly when the record qualifies against the starting
manifest. -/
theorem mem_runTables_iff (localDir : String) :
    ∀ (objs : List S3Object) (m : Manifest),
      (objs.map (fun o => lastSegment o.key)).Nodup →
      ∀ obj ∈ objs,
        ((localDir ++ "/" ++ lastSegment obj.key) ∈ runTables localDir objs m ↔
          qualifies m (lastSegment obj.key) obj.lastModified = true) := by
  intro objs
  induction objs with
  | nil => intro m _ obj h; simp at h
  | cons o0 rest ih =>
    intro m hnd obj hobj
    have hnd0 : lastSegment o0.key ∉ rest.map (fun o => lastSegment o.key) := by
      simp only [List.map_cons, List.nodup_cons] at hnd
      exact hnd.1
    have hndr : (rest.map (fun o => lastSegment o.key)).Nodup := by
      simp only [List.map_cons, List.nodup_cons] at hnd
      exact hnd.2
    rcases List.mem_cons.mp hobj with rfl | hmem
    · simp only [runTables]
      by_cases hq : qualifies m (lastSegment obj.key) obj.lastModified
      · rw [if_pos hq]
        exact ⟨fun _ => hq, fun _ => List.mem_cons_self _ _⟩
      · rw [if_neg hq]
        constructor
        · intro hp
          obtain ⟨o, ho, hpe, _⟩ := mem_runTables localDir rest m _ hp
          have hseg : lastSegment obj.key = lastSegment o.key :=
            string_append_left_cancel (localDir ++ "/") hpe
          rw [hseg] at hnd0
          exact absurd (List.mem_map_of_mem _ ho) hnd0
        · intro hq2; exact absurd hq2 hq
    · have hne : lastSegment obj.key ≠ lastSegment o0.key := by
        intro he
        rw [← he] at hnd0
        exact hnd0 (List.mem_map_of_mem _ hmem)
      simp only [runTables]
      by_cases hq0 : qualifies m (lastSegment o0.key) o0.lastModified
      · rw [if_pos hq0]
        have h1 := ih (manifestInsert m (lastSegment o0.key) o0.lastModified)
          hndr obj hmem
        rw [qualifies_insert_of_ne _ _ _ _ _ hne] at h1
        constructor
        · intro hp
          rcases List.mem_cons.mp hp with he | hp2
          · exact absurd (string_append_left_cancel (localDir ++ "/") he) hne
          · exact h1.mp hp2
        · intro hq; exact List.mem_cons_of_mem _ (h1.mpr hq)
      · rw [if_neg hq0]
        exact ih m hndr obj hmem

/-- Under distinct filenames, after the loop the manifest stores every
listed CSV record's timestamp under its filename. -/
theorem runManifest_lookup_of_listed :
    ∀ (objs : List S3Object) (m : Manifest),
      (objs.map (fun o => lastSegment o.key)).Nodup →
      ∀ obj ∈ objs, strEndsWith (lastSegment obj.key) ".csv" = true →
        manifestLookup (runManifest objs m) (lastSegment obj.key) =
          some obj.lastModified := by
  intro objs
  induction objs with
  | nil => intro m _ obj h; simp at h
  | cons o0 rest ih =>
    intro m hnd obj hobj hcsv
    have hnd0 : lastSegment o0.key ∉ rest.map (fun o => lastSegment o.key) := by
      simp only [List.map_cons, List.nodup_cons] at hnd
      exact hnd.1
    have hndr : (rest.map (fun o => lastSegment o.key)).Nodup := by
      simp only [List.map_cons, List.nodup_cons] at hnd
      exact hnd.2
    rcases List.mem_cons.mp hobj with rfl | hmem
    · have hrest : ∀ o ∈ rest, lastSegment o.key ≠ lastSegment obj.key := by
        intro o ho he
        rw [← he] at hnd0
        exact hnd0 (List.mem_map_of_mem _ ho)
      simp only [runManifest]
      by_cases hq : qualifies m (lastSegment obj.key) obj.lastModified
      · rw [if_pos hq, runManifest_lookup_of_not_listed rest _ _ hrest,
          manifestLookup_insert, if_pos rfl]
      · rw [if_neg hq, runManifest_lookup_of_not_listed rest _ _ hrest]
        exact lookup_of_not_qualifies m _ _ hcsv (by rwa [Bool.not_eq_true] at hq)
    · simp only [runManifest]
      by_cases hq : qualifies m (lastSegment o0.key) o0.lastModified
      · rw [if_pos hq]; exact ih _ hndr obj hmem hcsv
      · rw [if_neg hq]; exact ih _ hndr obj hmem hcsv

/-- After the loop, the manifest entry of a CSV filename equals the
timestamp of the last listed occurrence of that filename, duplicates
included. -/
theorem runManifest_lookup_last :
    ∀ (objs : List S3Object) (m : Manifest) (k : String) (o : S3Object),
      strEndsWith k ".csv" = true →
      (objs.filter (fun o2 => lastSegment o2.key == k)).getLast? = some o →
      manifestLookup (runManifest objs m) k = some o.lastModified := by
  intro objs
  induction objs with
  | nil => intro m k o _ h; simp at h
  | cons o0 rest ih =>
    intro m k o hcsv hlast
    rw [List.filter_cons] at hlast
    by_cases h0 : lastSegment o0.key = k
    · rw [if_pos (by simp [h0])] at hlast
      have hm2 : ∃ m2, runManifest (o0 :: rest) m = runManifest rest m2 ∧
          manifestLookup m2 k = some o0.lastModified := by
        simp only [runManifest]
        by_cases hq : qualifies m (lastSegment o0.key) o0.lastModified
        · rw [if_pos hq]
          refine ⟨_, rfl, ?_⟩
          rw [manifestLookup_insert, h0, if_pos rfl]
        · rw [if_neg hq]
          refine ⟨m, rfl, ?_⟩
          have hl2 := lookup_of_not_qualifies m (lastSegment o0.key)
            o0.lastModified (by rw [h0]; exact hcsv)
            (by rwa [Bool.not_eq_true] at hq)
          rwa [h0] at hl2
      obtain ⟨m2, hm2eq, hm2lk⟩ := hm2
      rw [hm2eq]
      cases hfr : rest.filter (fun o2 => lastSegment o2.key == k) with
      | nil =>
        rw [hfr] at hlast
        simp only [List.getLast?_singleton, Option.some.injEq] at hlast
        have hnl : ∀ o2 ∈ rest, lastSegment o2.key ≠ k := by
          intro o2 ho2 he
          have hmem2 : o2 ∈ rest.filter (fun o2 => lastSegment o2.key == k) := by
            rw [List.mem_filter]
            exact ⟨ho2, by simp [he]⟩
          rw [hfr] at hmem2
          simp at hmem2
        rw [runManifest_lookup_of_not_listed rest m2 k hnl, hm2lk, hlast]
      | cons o1 l =>
        rw [hfr] at hlast
        rw [List.getLast?_cons_cons] at hlast
        rw [← hfr] at hlast
        exact ih m2 k o hcsv hlast
    · rw [if_neg (by simp [h0])] at hlast
      simp only [runManifest]
      by_cases hq : qualifies m (lastSegment o0.key) o0.lastModified
      · rw [if_pos hq]; exact ih _ k o hcsv hlast
      · rw [if_neg hq]; exact ih _ k o hcsv hlast

/-- When no listed record qualifies against the manifest, nothing is
downloaded. -/
theorem runTables_eq_nil_of_no_qualify (localDir : String) :
    ∀ (objs : List S3Object) (m : Manifest),
      (∀ obj ∈ objs, qualifies m (lastSegment obj.key) obj.lastModified = false) →
      runTables localDir objs m = [] := by
  intro objs
  induction objs with
  | nil => intro m _; rfl
  | cons o0 rest ih =>
    intro m h
    have h0 := h o0 (List.mem_cons_self _ _)
    simp only [runTables]
    rw [if_neg (by simp [h0])]
    exact ih m (fun o ho => h o (List.mem_cons_of_mem _ ho))

/-- Every path produced by the loop, error or not, is the local path of a
listed record whose filename carries the lowercase `.csv` suffix. -/
theorem mem_processObjects_tables (store : S3Store) (localDir : String) :
    ∀ (objs : List S3Object) (m : Manifest) (acc : List String) (p : String),
      p ∈ (processObjects store localDir objs m acc).tables →
      p ∈ acc ∨ ∃ obj ∈ objs, p = localDir ++ "/" ++ lastSegment obj.key ∧
        strEndsWith (lastSegment obj.key) ".csv" = true := by
  intro objs
  induction objs with
  | nil =>
    intro m acc p hp
    left
    simpa [processObjects, LoopResult.tables] using hp
  | cons o0 rest ih =>
    intro m acc p hp
    simp only [processObjects] at hp
    by_cases hq : qualifies m (lastSegment o0.key) o0.lastModified
    · rw [if_pos hq] at hp
      cases hdl : store.downloadFile o0.key with
      | error e =>
        rw [hdl] at hp
        left
        simpa [LoopResult.tables] using hp
      | ok u =>
        rw [hdl] at hp
        rcases ih _ _ p hp with hin | hex
        · rcases List.mem_append.mp hin with h | h
          · left; exact h
          · right
            refine ⟨o0, List.mem_cons_self _ _, ?_, ?_⟩
            · simpa using h
            · have hq2 := hq
              simp only [qualifies, Bool.and_eq_true] at hq2
              exact hq2.1
        · obtain ⟨obj, ho, hrest⟩ := hex
          right; exact ⟨obj, List.mem_cons_of_mem _ ho, hrest⟩
    · rw [if_neg hq] at hp
      rcases ih _ _ p hp with h | hex
      · left; exact h
      · obtain ⟨obj, ho, hrest⟩ := hex
        right; exact ⟨obj, List.mem_cons_of_mem _ ho, hrest⟩

/-- A manifest entry after a Python dict assignment either carries the
assigned key or was already present. -/
theorem manifestInsert_mem (m : Manifest) (k v : String) :
    ∀ kv ∈ manifestInsert m k v, kv.1 = k ∨ kv ∈ m := by
  induction m with
  | nil =>
    intro kv h
    simp only [manifestInsert, List.mem_singleton] at h
    left; rw [h]
  | cons kv0 rest ih =>
    obtain ⟨k0, v0⟩ := kv0
    intro kv h
    simp only [manifestInsert] at h
    by_cases h0 : k0 = k
    · rw [if_pos h0] at h
      rcases List.mem_cons.mp h with he | hm
      · left; rw [he, h0]
      · right; exact List.mem_cons_of_mem _ hm
    · rw [if_neg h0] at h
      rcases List.mem_cons.mp h with he | hm
      · right; rw [he]; exact List.mem_cons_self _ _
      · rcases ih kv hm with hk | hin
        · left; exact hk
        · right; exact List.mem_cons_of_mem _ hin

/-- When the loop completes, every entry of the resulting in-memory
manifest was present initially or carries a lowercase `.csv` filename. -/
theorem processObjects_ok_keys (store : S3Store) (localDir : String) :
    ∀ (objs : List S3Object) (m : Manifest) (acc : List String)
      (m2 : Manifest) (t : List String),
      processObjects store localDir objs m acc = .ok m2 t →
      ∀ kv ∈ m2, kv ∈ m ∨ strEndsWith kv.1 ".csv" = true := by
  intro objs
  induction objs with
  | nil =>
    intro m acc m2 t h kv hkv
    simp only [processObjects, LoopResult.ok.injEq] at h
    left
    rw [← h.1] at hkv
    exact hkv
  | cons o0 rest ih =>
    intro m acc m2 t h kv hkv
    simp only [processObjects] at h
    by_cases hq : qualifies m (lastSegment o0.key) o0.lastModified
    · rw [if_pos hq] at h
      cases hdl : store.downloadFile o0.key with
      | error e => rw [hdl] at h; exact absurd h (by simp)
      | ok u =>
        rw [hdl] at h
        rcases ih _ _ _ _ h kv hkv with hin | hcsv
        · rcases manifestInsert_mem m _ _ kv hin with hk | hm
          · right
            rw [hk]
            have hq2 := hq
            simp only [qualifies, Bool.and_eq_true] at hq2
            exact hq2.1
          · left; exact hm
        · right; exact hcsv
    · rw [if_neg hq] at h
      exact ih _ _ _ _ h kv hkv

/-- Unfolding of `get_new_camera_info_tables` when the listing succeeds
with contents and every download succeeds. -/
theorem getNew_eq_of_ok (store : S3Store) (localDir : String)
    (mf0 : Option Manifest) (resp : ListResponse) (objs : List S3Object)
    (hl : store.listObjects 0 none = .ok resp)
    (hc : resp.contents = some objs)
    (hdl : ∀ k, store.downloadFile k = .ok ()) :
    getNewCameraInfoTables store localDir mf0 =
      ⟨runTables localDir objs (mf0.getD []),
        some (runManifest objs (mf0.getD []))⟩ := by
  unfold getNewCameraInfoTables
  rw [hl]
  dsimp only
  rw [hc]
  dsimp only
  rw [processObjects_eq_run store localDir hdl]
  dsimp only
  rw [List.nil_append]

/-- Unfolding of `get_new_camera_info_tables` when the listing call raises
an error. -/
theorem getNew_eq_of_listing_error (store : S3Store) (localDir : String)
    (mf0 : Option Manifest) (e : S3Error)
    (hl : store.listObjects 0 none = .error e) :
    getNewCameraInfoTables store localDir mf0 = ⟨[], mf0⟩ := by
  unfold getNewCameraInfoTables
  rw [hl]

/-- Unfolding of `get_new_camera_info_tables` when the first response has
no contents indicator. -/
theorem getNew_eq_of_no_contents (store : S3Store) (localDir : String)
    (mf0 : Option Manifest) (resp : ListResponse)
    (hl : store.listObjects 0 none = .ok resp)
    (hc : resp.contents = none) :
    getNewCameraInfoTables store localDir mf0 = ⟨[], mf0⟩ := by
  unfold getNewCameraInfoTables
  rw [hl]
  dsimp only
  rw [hc]

/-- Unfolding of `get_new_camera_info_tables` when a download raises: the
escaped loop yields the accumulated tables and the manifest file keeps its
prior state. -/
theorem getNew_eq_of_loop_err (store : S3Store) (localDir : String)
    (mf0 : Option Manifest) (resp : ListResponse) (objs : List S3Object)
    (acc : List String)
    (hl : store.listObjects 0 none = .ok resp)
    (hc : resp.contents = some objs)
    (hpe : processObjects store localDir objs (mf0.getD []) [] = .err acc) :
    getNewCameraInfoTables store localDir mf0 = ⟨acc, mf0⟩ := by
  unfold getNewCameraInfoTables
  rw [hl]
  dsimp only
  rw [hc]
  dsimp only
  rw [hpe]

/-- Store for the C1 scenario: two CSV records in one listing response,
`table1.csv` modified 2025-01-02 and `table2.csv` modified 2025-01-01. -/
def c1Listing : List S3Object :=
  [⟨"data/table1.csv", "2025-01-02T00:00:00+00:00"⟩,
   ⟨"data/table2.csv", "2025-01-01T00:00:00+00:00"⟩]

def c1Store : S3Store where
  listObjects := fun _ _ => .ok ⟨some c1Listing, false, none⟩
  downloadFile := fun _ => .ok ()

/-- Starting manifest of the C1 scenario: `table1.csv` stale, `table2.csv`
current. -/
def c1Manifest0 : Manifest :=
  [("table1.csv", "2024-01-01T00:00:00+00:00"),
   ("table2.csv", "2025-01-01T00:00:00+00:00")]

/-- Claim C1: for every manifest and (single-response) remote listing with
all downloads succeeding and distinct filenames, a record's local path is
downloaded and appended to the result iff its key's last path segment ends
with the lowercase suffix `.csv` and the filename is absent from the
manifest or the stored timestamp string differs from the record's
normalized last-modified time (`qualifies`); in particular, in the
table1/table2 scenario only `table1.csv` is downloaded and its manifest
entry becomes `2025-01-02T00:00:00+00:00`. -/
theorem c1_qualification_iff :
    (∀ (store : S3Store) (localDir : String) (mf0 : Option Manifest)
        (resp : ListResponse) (objs : List S3Object),
        store.listObjects 0 none = .ok resp →
        resp.contents = some objs →
        (∀ k, store.downloadFile k = .ok ()) →
        (objs.map (fun o => lastSegment o.key)).Nodup →
        ∀ obj ∈ objs,
          ((localDir ++ "/" ++ lastSegment obj.key) ∈
              (getNewCameraInfoTables store localDir mf0).newTables ↔
            qualifies (mf0.getD []) (lastSegment obj.key) obj.lastModified
              = true)) ∧
    getNewCameraInfoTables c1Store "work" (some c1Manifest0) =
      ⟨["work/table1.csv"],
        some [("table1.csv", "2025-01-02T00:00:00+00:00"),
          ("table2.csv", "2025-01-01T00:00:00+00:00")]⟩ := by
  constructor
  · intro store localDir mf0 resp objs hl hc hdl hnd obj hobj
    rw [getNew_eq_of_ok store localDir mf0 resp objs hl hc hdl]
    exact mem_runTables_iff localDir objs _ hnd obj hobj
  · decide

theorem c1_qualification_iff_witness :
    ("work" ++ "/" ++ lastSegment "data/table1.csv" ∈
        (getNewCameraInfoTables c1Store "work" (some c1Manifest0)).newTables ↔
      qualifies ((some c1Manifest0).getD []) (lastSegment "data/table1.csv")
        "2025-01-02T00:00:00+00:00" = true) :=
  c1_qualification_iff.1 c1Store "work" (some c1Manifest0)
    ⟨some c1Listing, false, none⟩ c1Listing rfl rfl (fun _ => rfl) (by decide)
    ⟨"data/table1.csv", "2025-01-02T00:00:00+00:00"⟩ (by decide)

/-- Store raising a credentials error on the (single) listing call. -/
def c5Store : S3Store where
  listObjects := fun _ _ => .error .credentials
  downloadFile := fun _ => .ok ()

/-- Claim C5: a missing-or-incomplete credentials error on the first
listing attempt yields an empty result and the manifest file keeps its
prior state: not created when absent, unchanged when present. -/
theorem c5_credentials_error (store : S3Store) (localDir : String)
    (mf0 : Option Manifest)
    (hl : store.listObjects 0 none = .error .credentials) :
    getNewCameraInfoTables store localDir mf0 = ⟨[], mf0⟩ :=
  getNew_eq_of_listing_error store localDir mf0 .credentials hl

theorem c5_credentials_error_witness :
    getNewCameraInfoTables c5Store "work" none =
        ⟨[], none⟩ ∧
      getNewCameraInfoTables c5Store "work"
          (some [("table1.csv", "2024-01-01T00:00:00+00:00")]) =
        ⟨[], some [("table1.csv", "2024-01-01T00:00:00+00:00")]⟩ :=
  ⟨c5_credentials_error c5Store "work" none rfl,
    c5_credentials_error c5Store "work"
      (some [("table1.csv", "2024-01-01T00:00:00+00:00")]) rfl⟩

/-- Store whose single listing response carries no contents indicator. -/
def c6Store : S3Store where
  listObjects := fun _ _ => .ok ⟨none, false, none⟩
  downloadFile := fun _ => .ok ()

/-- Claim C6: when the first listing response has no contents indicator,
the run returns an empty result and the manifest file keeps its prior
state byte for byte: not rewritten, not created when absent. -/
theorem c6_no_contents (store : S3Store) (localDir : String)
    (mf0 : Option Manifest) (resp : ListResponse)
    (hl : store.listObjects 0 none = .ok resp)
    (hc : resp.contents = none) :
    getNewCameraInfoTables store localDir mf0 = ⟨[], mf0⟩ :=
  getNew_eq_of_no_contents store localDir mf0 resp hl hc

theorem c6_no_contents_witness :
    getNewCameraInfoTables c6Store "work"
        (some [("table1.csv", "2024-01-01T00:00:00+00:00")]) =
      ⟨[], some [("table1.csv", "2024-01-01T00:00:00+00:00")]⟩ :=
  c6_no_contents c6Store "work"
    (some [("table1.csv", "2024-01-01T00:00:00+00:00")])
    ⟨none, false, none⟩ rfl rfl

/-- Store for the C7 witness: one fresh CSV, one known CSV, one non-CSV. -/
def c7Store : S3Store where
  listObjects := fun _ _ =>
    .ok ⟨some [⟨"data/fresh.csv", "2025-03-01T00:00:00+00:00"⟩,
      ⟨"data/known.csv", "2025-01-01T00:00:00+00:00"⟩,
      ⟨"data/notes.txt", "2025-01-01T00:00:00+00:00"⟩], false, none⟩
  downloadFile := fun _ => .ok ()

/-- Claim C7: after a successful pass (listing with contents, every
download succeeding, distinct filenames), the persisted manifest maps every
CSV filename of the listing to that record's normalized last-modified time,
and entries for filenames not listed keep their prior value. -/
theorem c7_manifest_invariant (store : S3Store) (localDir : String)
    (mf0 : Option Manifest) (resp : ListResponse) (objs : List S3Object)
    (hl : store.listObjects 0 none = .ok resp)
    (hc : resp.contents = some objs)
    (hdl : ∀ k, store.downloadFile k = .ok ())
    (hnd : (objs.map (fun o => lastSegment o.key)).Nodup) :
    ∃ mf, (getNewCameraInfoTables store localDir mf0).manifestFile = some mf ∧
      (∀ obj ∈ objs, strEndsWith (lastSegment obj.key) ".csv" = true →
        manifestLookup mf (lastSegment obj.key) = some obj.lastModified) ∧
      (∀ k2, (∀ obj ∈ objs, lastSegment obj.key ≠ k2) →
        manifestLookup mf k2 = manifestLookup (mf0.getD []) k2) := by
  rw [getNew_eq_of_ok store localDir mf0 resp objs hl hc hdl]
  refine ⟨_, rfl, ?_, ?_⟩
  · intro obj hobj hcsv
    exact runManifest_lookup_of_listed objs _ hnd obj hobj hcsv
  · intro k2 hk2
    exact runManifest_lookup_of_not_listed objs _ k2 hk2

theorem c7_manifest_invariant_witness :
    ∃ mf, (getNewCameraInfoTables c7Store "work"
        (some [("known.csv", "2025-01-01T00:00:00+00:00"),
          ("gone.csv", "2020-01-01T00:00:00+00:00")])).manifestFile = some mf ∧
      (∀ obj ∈ [(⟨"data/fresh.csv", "2025-03-01T00:00:00+00:00"⟩ : S3Object),
          ⟨"data/known.csv", "2025-01-01T00:00:00+00:00"⟩,
          ⟨"data/notes.txt", "2025-01-01T00:00:00+00:00"⟩],
        strEndsWith (lastSegment obj.key) ".csv" = true →
        manifestLookup mf (lastSegment obj.key) = some obj.lastModified) ∧
      (∀ k2, (∀ obj ∈ [(⟨"data/fresh.csv", "2025-03-01T00:00:00+00:00"⟩ : S3Object),
          ⟨"data/known.csv", "2025-01-01T00:00:00+00:00"⟩,
          ⟨"data/notes.txt", "2025-01-01T00:00:00+00:00"⟩],
          lastSegment obj.key ≠ k2) →
        manifestLookup mf k2 =
          manifestLookup ((some [("known.csv", "2025-01-01T00:00:00+00:00"),
            ("gone.csv", "2020-01-01T00:00:00+00:00")]).getD []) k2) :=
  c7_manifest_invariant c7Store "work"
    (some [("known.csv", "2025-01-01T00:00:00+00:00"),
      ("gone.csv", "2020-01-01T00:00:00+00:00")])
    ⟨some [⟨"data/fresh.csv", "2025-03-01T00:00:00+00:00"⟩,
      ⟨"data/known.csv", "2025-01-01T00:00:00+00:00"⟩,
      ⟨"data/notes.txt", "2025-01-01T00:00:00+00:00"⟩], false, none⟩
    _ rfl rfl (fun _ => rfl) (by decide)

/-- Store refuting C8 as stated: two listed keys share the final path
segment `x.csv` with different timestamps, so no manifest value satisfies
both and every run re-downloads. -/
def c8Store : S3Store where
  listObjects := fun _ _ =>
    .ok ⟨some [⟨"a/x.csv", "2025-01-01T00:00:00+00:00"⟩,
      ⟨"b/x.csv", "2025-01-02T00:00:00+00:00"⟩], false, none⟩
  downloadFile := fun _ => .ok ()

theorem c8_counterexample :
    (getNewCameraInfoTables c8Store "work"
        (getNewCameraInfoTables c8Store "work" none).manifestFile).newTables
      ≠ [] := by
  decide

/-- Claim C8 (amended): when no two listed records share a final path
segment, a second run against the unchanged listing, started from the
manifest persisted by a first successful run, downloads nothing. -/
theorem c8_second_run_empty (store : S3Store) (localDir : String)
    (mf0 : Option Manifest) (resp : ListResponse) (objs : List S3Object)
    (hl : store.listObjects 0 none = .ok resp)
    (hc : resp.contents = some objs)
    (hdl : ∀ k, store.downloadFile k = .ok ())
    (hnd : (objs.map (fun o => lastSegment o.key)).Nodup) :
    (getNewCameraInfoTables store localDir
        (getNewCameraInfoTables store localDir mf0).manifestFile).newTables
      = [] := by
  rw [getNew_eq_of_ok store localDir mf0 resp objs hl hc hdl]
  rw [getNew_eq_of_ok store localDir _ resp objs hl hc hdl]
  rw [Option.getD_some]
  apply runTables_eq_nil_of_no_qualify
  intro obj hobj
  by_cases hcsv : strEndsWith (lastSegment obj.key) ".csv" = true
  · have hlk := runManifest_lookup_of_listed objs (mf0.getD []) hnd obj hobj hcsv
    simp [qualifies, hlk]
  · rw [Bool.not_eq_true] at hcsv
    simp [qualifies, hcsv]

theorem c8_second_run_empty_witness :
    (getNewCameraInfoTables c1Store "rerun"
        (getNewCameraInfoTables c1Store "rerun" (some c1Manifest0)).manifestFile).newTables
      = [] :=
  c8_second_run_empty c1Store "rerun" (some c1Manifest0)
    ⟨some c1Listing, false, none⟩ c1Listing rfl rfl (fun _ => rfl) (by decide)

/-- Claim C9: when the starting manifest holds only `.csv` filenames, every
returned path is the local path of a listed record whose filename ends in
lowercase `.csv`, and every entry of the manifest file afterwards still
carries a `.csv` filename — regardless of download failures. -/
theorem c9_non_csv_never (store : S3Store) (localDir : String)
    (mf0 : Option Manifest) (resp : ListResponse) (objs : List S3Object)
    (hl : store.listObjects 0 none = .ok resp)
    (hc : resp.contents = some objs)
    (hm : ∀ kv ∈ mf0.getD [], strEndsWith kv.1 ".csv" = true) :
    (∀ p ∈ (getNewCameraInfoTables store localDir mf0).newTables,
      ∃ obj ∈ objs, p = localDir ++ "/" ++ lastSegment obj.key ∧
        strEndsWith (lastSegment obj.key) ".csv" = true) ∧
    (∀ mf, (getNewCameraInfoTables store localDir mf0).manifestFile = some mf →
      ∀ kv ∈ mf, strEndsWith kv.1 ".csv" = true) := by
  unfold getNewCameraInfoTables
  rw [hl]
  dsimp only
  rw [hc]
  dsimp only
  cases hpr : processObjects store localDir objs (mf0.getD []) [] with
  | ok m2 t =>
    dsimp only
    constructor
    · intro p hp
      have hmem := mem_processObjects_tables store localDir objs
        (mf0.getD []) [] p (by rw [hpr]; exact hp)
      rcases hmem with h | h
      · simp at h
      · exact h
    · intro mf hmf kv hkv
      rw [Option.some.injEq] at hmf
      rw [← hmf] at hkv
      rcases processObjects_ok_keys store localDir objs _ [] m2 t hpr kv hkv
        with hin | hcsv
      · exact hm kv hin
      · exact hcsv
  | err t =>
    dsimp only
    constructor
    · intro p hp
      have hmem := mem_processObjects_tables store localDir objs
        (mf0.getD []) [] p (by rw [hpr]; exact hp)
      rcases hmem with h | h
      · simp at h
      · exact h
    · intro mf hmf kv hkv
      rw [hmf] at hm
      exact hm kv hkv

theorem c9_non_csv_never_witness :
    (∀ p ∈ (getNewCameraInfoTables c7Store "work"
        (some [("known.csv", "2025-01-01T00:00:00+00:00")])).newTables,
      ∃ obj ∈ [(⟨"data/fresh.csv", "2025-03-01T00:00:00+00:00"⟩ : S3Object),
          ⟨"data/known.csv", "2025-01-01T00:00:00+00:00"⟩,
          ⟨"data/notes.txt", "2025-01-01T00:00:00+00:00"⟩],
        p = "work" ++ "/" ++ lastSegment obj.key ∧
        strEndsWith (lastSegment obj.key) ".csv" = true) ∧
    (∀ mf, (getNewCameraInfoTables c7Store "work"
        (some [("known.csv", "2025-01-01T00:00:00+00:00")])).manifestFile = some mf →
      ∀ kv ∈ mf, strEndsWith kv.1 ".csv" = true) :=
  c9_non_csv_never c7Store "work"
    (some [("known.csv", "2025-01-01T00:00:00+00:00")])
    ⟨some [⟨"data/fresh.csv", "2025-03-01T00:00:00+00:00"⟩,
      ⟨"data/known.csv", "2025-01-01T00:00:00+00:00"⟩,
      ⟨"data/notes.txt", "2025-01-01T00:00:00+00:00"⟩], false, none⟩
    _ rfl rfl (by decide)

/-- Store refuting C3 as stated: the listing succeeds with two fresh CSV
records, the download of the first succeeds and the download of the second
raises a generic error. -/
def c3Store : S3Store where
  listObjects := fun _ _ =>
    .ok ⟨some [⟨"data/a.csv", "2025-01-01T00:00:00+00:00"⟩,
      ⟨"data/b.csv", "2025-01-01T00:00:00+00:00"⟩], false, none⟩
  downloadFile := fun k => if k = "data/a.csv" then .ok () else .error .generic

theorem c3_counterexample :
    (getNewCameraInfoTables c3Store "work" none).newTables ≠ [] ∧
      getNewCameraInfoTables c3Store "work" none = ⟨["work/a.csv"], none⟩ := by
  exact ⟨by decide, by decide⟩

/-- Claim C3 (amended): any error raised during the listing or during a
per-record download leaves the manifest file untouched, but the returned
list is the list of records already downloaded before the failure — empty
only when the failure strikes during the listing (or before any
download), not in general. -/
theorem c3_error_aborts_unwritten (store : S3Store) (localDir : String)
    (mf0 : Option Manifest) :
    (∀ e, store.listObjects 0 none = .error e →
      getNewCameraInfoTables store localDir mf0 = ⟨[], mf0⟩) ∧
    (∀ (resp : ListResponse) (objs : List S3Object) (acc : List String),
      store.listObjects 0 none = .ok resp →
      resp.contents = some objs →
      processObjects store localDir objs (mf0.getD []) [] = .err acc →
      getNewCameraInfoTables store localDir mf0 = ⟨acc, mf0⟩) := by
  constructor
  · intro e hl
    exact getNew_eq_of_listing_error store localDir mf0 e hl
  · intro resp objs acc hl hc hpe
    exact getNew_eq_of_loop_err store localDir mf0 resp objs acc hl hc hpe

theorem c3_error_aborts_unwritten_witness :
    getNewCameraInfoTables c3Store "work" none = ⟨["work/a.csv"], none⟩ :=
  (c3_error_aborts_unwritten c3Store "work" none).2
    ⟨some [⟨"data/a.csv", "2025-01-01T00:00:00+00:00"⟩,
      ⟨"data/b.csv", "2025-01-01T00:00:00+00:00"⟩], false, none⟩
    [⟨"data/a.csv", "2025-01-01T00:00:00+00:00"⟩,
      ⟨"data/b.csv", "2025-01-01T00:00:00+00:00"⟩]
    ["work/a.csv"] rfl rfl (by decide)

/-- Store for the C10 demonstrations: two keys with the same final path
segment `x.csv` and different timestamps, in listing order. -/
def c10Store : S3Store where
  listObjects := fun _ _ =>
    .ok ⟨some [⟨"a/x.csv", "2025-01-01T00:00:00+00:00"⟩,
      ⟨"b/x.csv", "2025-01-02T00:00:00+00:00"⟩], false, none⟩
  downloadFile := fun _ => .ok ()

/-- Claim C10: listed keys sharing a final path segment are processed in
listing order against the same local path: in general, after a successful
pass the persisted entry of a CSV filename holds the timestamp of its last
listed occurrence; and in the two-occurrence demonstrations, each
occurrence qualifying against the manifest as updated by earlier
occurrences is downloaded to the same local path, which appears in the
result once per download. -/
theorem c10_duplicate_filenames :
    (∀ (store : S3Store) (localDir : String) (mf0 : Option Manifest)
        (resp : ListResponse) (objs : List S3Object),
        store.listObjects 0 none = .ok resp →
        resp.contents = some objs →
        (∀ k, store.downloadFile k = .ok ()) →
        ∀ (k : String) (o : S3Object), strEndsWith k ".csv" = true →
          (objs.filter (fun o2 => lastSegment o2.key == k)).getLast? = some o →
          ∀ mf, (getNewCameraInfoTables store localDir mf0).manifestFile
              = some mf →
            manifestLookup mf k = some o.lastModified) ∧
    getNewCameraInfoTables c10Store "work" none =
      ⟨["work/x.csv", "work/x.csv"],
        some [("x.csv", "2025-01-02T00:00:00+00:00")]⟩ ∧
    getNewCameraInfoTables c10Store "work"
        (some [("x.csv", "2025-01-01T00:00:00+00:00")]) =
      ⟨["work/x.csv"], some [("x.csv", "2025-01-02T00:00:00+00:00")]⟩ := by
  refine ⟨?_, by decide, by decide⟩
  intro store localDir mf0 resp objs hl hc hdl k o hcsv hlast mf hmf
  rw [getNew_eq_of_ok store localDir mf0 resp objs hl hc hdl] at hmf
  dsimp only at hmf
  rw [Option.some.injEq] at hmf
  rw [← hmf]
  exact runManifest_lookup_last objs _ k o hcsv hlast

theorem c10_duplicate_filenames_witness :
    manifestLookup [("x.csv", "2025-01-02T00:00:00+00:00")] "x.csv" =
      some (S3Object.mk "b/x.csv" "2025-01-02T00:00:00+00:00").lastModified :=
  c10_duplicate_filenames.1 c10Store "work" none
    ⟨some [⟨"a/x.csv", "2025-01-01T00:00:00+00:00"⟩,
      ⟨"b/x.csv", "2025-01-02T00:00:00+00:00"⟩], false, none⟩
    [⟨"a/x.csv", "2025-01-01T00:00:00+00:00"⟩,
      ⟨"b/x.csv", "2025-01-02T00:00:00+00:00"⟩]
    rfl rfl (fun _ => rfl) "x.csv"
    ⟨"b/x.csv", "2025-01-02T00:00:00+00:00"⟩ (by decide) (by decide)
    [("x.csv", "2025-01-02T00:00:00+00:00")] (by decide)

/-- Store with a two-page listing: the first page is truncated and carries
continuation token `token-1`; the page fetched with any token holds
`c.csv`. Mirrors the repo test `test_get_new_camera_info_tables_pagination`. -/
def c2Store : S3Store where
  listObjects := fun _ tok =>
    match tok with
    | none =>
      .ok ⟨some [⟨"data/a.csv", "2025-01-01T00:00:00+00:00"⟩,
        ⟨"data/b.csv", "2025-01-01T00:00:00+00:00"⟩], true, some "token-1"⟩
    | some _ =>
      .ok ⟨some [⟨"data/c.csv", "2025-01-02T00:00:00+00:00"⟩], false, none⟩
  downloadFile := fun _ => .ok ()

/-- Claim C2 (code behavior at the failing input): on a listing split
across two pages with a valid continuation token, the function downloads
only the first page's records and never the second page's `c.csv` — it
issues a single listing call and ignores the continuation token. -/
theorem c2_code_behavior :
    getNewCameraInfoTables c2Store "work" none =
      ⟨["work/a.csv", "work/b.csv"],
        some [("a.csv", "2025-01-01T00:00:00+00:00"),
          ("b.csv", "2025-01-01T00:00:00+00:00")]⟩ ∧
    "work/c.csv" ∉ (getNewCameraInfoTables c2Store "work" none).newTables := by
  exact ⟨by decide, by decide⟩

/-- Store reproducing the repo test
`test_get_new_camera_info_tables_missing_token_recovers_on_retry`: the
first listing call reports truncated with no token and holds `a.csv`; a
second identical call would return token `tok-1`; the page fetched with a
token holds `b.csv`. -/
def c4Store : S3Store where
  listObjects := fun i tok =>
    match i, tok with
    | 0, none =>
      .ok ⟨some [⟨"data/a.csv", "2025-01-01T00:00:00+00:00"⟩], true, none⟩
    | _, none => .ok ⟨some [], true, some "tok-1"⟩
    | _, some _ =>
      .ok ⟨some [⟨"data/b.csv", "2025-01-02T00:00:00+00:00"⟩], false, none⟩
  downloadFile := fun _ => .ok ()

/-- Claim C4 (code behavior at the failing input): on a first page
reporting truncated with no continuation token, the function performs no
retry and no pagination: it terminates with only the first page's `a.csv`
processed, and the `b.csv` that a retry would have surfaced is never
downloaded. -/
theorem c4_code_behavior :
    getNewCameraInfoTables c4Store "work" none =
      ⟨["work/a.csv"], some [("a.csv", "2025-01-01T00:00:00+00:00")]⟩ ∧
    "work/b.csv" ∉ (getNewCameraInfoTables c4Store "work" none).newTables := by
  exact ⟨by decide, by decide⟩
